import Mathlib

/-!
Shallow embedding of the pressure-sensor web-serial acquisition page
(`LiveMeasurementPage`): the sample decoder, the live-buffer merge policy,
the serial line matcher and read-loop frame effect, the BLE notification
handler, the gain-command validation, the CSV flush, the start controller
and the stop sequences of both transports.  All machine integers are
modelled as `Nat`/`Int`; JavaScript `Uint8Array` out-of-range reads
(`undefined`, coerced to 0 by the bitwise operators) are modelled with
`List.getD _ _ 0`.
-/

namespace PressureSensor

/-! ### Sample decoder (`decodeBytesToSamples`, `decodeHexToSamples`) -/

/-- `decodeBytesToSamples(bytes)`: the loop `for (let i = 0; i < 54; i += 3)`
runs 18 times at indices `i = 3*k`; out-of-range `bytes[i]` is JS `undefined`,
which the bitwise operators coerce to 0, hence `getD _ _ 0`. -/
def decodeBytesToSamples (bytes : List Nat) : List Int :=
  (List.range 18).flatMap (fun k =>
    let b0 := bytes.getD (3 * k) 0
    let b1 := bytes.getD (3 * k + 1) 0
    let b2 := bytes.getD (3 * k + 2) 0
    let v1 : Int := (((((b2 <<< 4) &&& 0x0F00) ||| b0) : Nat) : Int) - 2048
    let v2 : Int := (((((b2 <<< 8) &&& 0x0F00) ||| b1) : Nat) : Int) - 2048
    [v1, v2])

/-- Value of a hexadecimal digit character, `none` if not a hex digit
(codes 48-57 are `0`-`9`, 65-70 are `A`-`F`, 97-102 are `a`-`f`). -/
def hexCharVal (c : Char) : Option Nat :=
  let v := c.toNat
  if 48 ≤ v && v ≤ 57 then some (v - 48)
  else if 65 ≤ v && v ≤ 70 then some (v - 55)
  else if 97 ≤ v && v ≤ 102 then some (v - 87)
  else none

/-- JS `parseInt(s, 16)` on a two-character chunk followed by the `Uint8Array`
element coercion (`NaN` becomes 0): the value of the longest hex-digit
prefix, 0 when the first character is not a hex digit. -/
def jsHexByte (c1 c2 : Char) : Nat :=
  match hexCharVal c1 with
  | none => 0
  | some v1 =>
    match hexCharVal c2 with
    | none => v1
    | some v2 => 16 * v1 + v2

/-- The byte-building loop of `decodeHexToSamples`: `substr(i, 2)` chunks of
the hex string, one byte per chunk (a trailing lone character yields a
one-character chunk). -/
def hexPairsToBytes : List Char → List Nat
  | [] => []
  | [c1] => [(hexCharVal c1).getD 0]
  | c1 :: c2 :: rest => jsHexByte c1 c2 :: hexPairsToBytes rest

/-- `decodeHexToSamples(hexString)`: convert hex text to bytes two characters
at a time, then delegate to the byte decoder. -/
def decodeHexToSamples (hexString : String) : List Int :=
  decodeBytesToSamples (hexPairsToBytes hexString.toList)

/-! ### Bit-level helper lemmas for the nibble unpacking -/

set_option maxRecDepth 4096 in
theorem mask4_fin : ∀ b : Fin 256, ((b.val <<< 4) &&& 0x0F00) = b.val / 16 * 256 := by
  decide

set_option maxRecDepth 4096 in
theorem mask8_fin : ∀ b : Fin 256, ((b.val <<< 8) &&& 0x0F00) = b.val % 16 * 256 := by
  decide

set_option maxRecDepth 32768 in
theorem orLow_fin : ∀ h : Fin 16, ∀ lo : Fin 256,
    ((h.val * 256) ||| lo.val) = h.val * 256 + lo.val := by
  decide

theorem mask4_eq {b : Nat} (hb : b < 256) : ((b <<< 4) &&& 0x0F00) = b / 16 * 256 :=
  mask4_fin ⟨b, hb⟩

theorem mask8_eq {b : Nat} (hb : b < 256) : ((b <<< 8) &&& 0x0F00) = b % 16 * 256 :=
  mask8_fin ⟨b, hb⟩

theorem orLow_eq {h lo : Nat} (hh : h < 16) (hlo : lo < 256) :
    ((h * 256) ||| lo) = h * 256 + lo :=
  orLow_fin ⟨h, hh⟩ ⟨lo, hlo⟩

/-- Bytes drawn with default 0 from a list of values below 256 are below 256. -/
theorem getD_lt_256 {bytes : List Nat} (hb : ∀ b ∈ bytes, b < 256) (i : Nat) :
    bytes.getD i 0 < 256 := by
  rcases h : bytes[i]? with _ | b
  · simp [List.getD, h]
  · obtain ⟨hlen, hget⟩ := List.getElem?_eq_some_iff.mp h
    have : b ∈ bytes := hget ▸ List.getElem_mem hlen
    simpa [List.getD, h] using hb b this

/-! ### Generic lemmas about two-element flatMap over a range -/

theorem range_flatMap_succ (n : Nat) (f : Nat → List α) :
    (List.range (n + 1)).flatMap f = f 0 ++ (List.range n).flatMap (fun k => f (k + 1)) := by
  rw [List.range_succ_eq_map, List.flatMap_cons, List.flatMap_map]

theorem length_pairFlat (n : Nat) (f g : Nat → Int) :
    ((List.range n).flatMap (fun k => [f k, g k])).length = 2 * n := by
  induction n generalizing f g with
  | zero => simp
  | succ m ih =>
    rw [range_flatMap_succ, List.length_append, ih (fun k => f (k + 1)) (fun k => g (k + 1))]
    simp only [List.length_cons, List.length_nil]
    omega

theorem pairFlat_getD (n j : Nat) (f g : Nat → Int) (hj : j < n) :
    ((List.range n).flatMap (fun k => [f k, g k])).getD (2 * j) 0 = f j ∧
    ((List.range n).flatMap (fun k => [f k, g k])).getD (2 * j + 1) 0 = g j := by
  induction n generalizing j f g with
  | zero => omega
  | succ m ih =>
    rw [range_flatMap_succ]
    cases j with
    | zero => simp
    | succ j' =>
      have h2 : 2 * (j' + 1) = 2 * j' + 1 + 1 := by omega
      rw [h2]
      simpa using ih j' (fun k => f (k + 1)) (fun k => g (k + 1)) (by omega)

/-! ### Structure of the decoder output -/

/-- First sample of the `k`-th byte triplet:
`v1 = (((b2 << 4) & 0x0F00) | b0) - 2048`. -/
def sampleV1 (bytes : List Nat) (k : Nat) : Int :=
  ((((((bytes.getD (3 * k + 2) 0) <<< 4) &&& 0x0F00) ||| bytes.getD (3 * k) 0) : Nat) : Int) - 2048

/-- Second sample of the `k`-th byte triplet:
`v2 = (((b2 << 8) & 0x0F00) | b1) - 2048`. -/
def sampleV2 (bytes : List Nat) (k : Nat) : Int :=
  ((((((bytes.getD (3 * k + 2) 0) <<< 8) &&& 0x0F00) ||| bytes.getD (3 * k + 1) 0) : Nat) : Int) - 2048

theorem decode_eq_pairFlat (bytes : List Nat) :
    decodeBytesToSamples bytes =
      (List.range 18).flatMap (fun k => [sampleV1 bytes k, sampleV2 bytes k]) := rfl

theorem decode_length (bytes : List Nat) : (decodeBytesToSamples bytes).length = 36 := by
  rw [decode_eq_pairFlat]
  exact length_pairFlat 18 _ _

theorem sampleV1_bound {bytes : List Nat} (hb : ∀ b ∈ bytes, b < 256) (k : Nat) :
    -2048 ≤ sampleV1 bytes k ∧ sampleV1 bytes k ≤ 2047 := by
  have hb2 := getD_lt_256 hb (3 * k + 2)
  have hb0 := getD_lt_256 hb (3 * k)
  unfold sampleV1
  rw [mask4_eq hb2, orLow_eq (by omega) hb0]
  have h15 : bytes.getD (3 * k + 2) 0 / 16 ≤ 15 := by omega
  constructor
  · omega
  · omega

theorem sampleV2_bound {bytes : List Nat} (hb : ∀ b ∈ bytes, b < 256) (k : Nat) :
    -2048 ≤ sampleV2 bytes k ∧ sampleV2 bytes k ≤ 2047 := by
  have hb2 := getD_lt_256 hb (3 * k + 2)
  have hb1 := getD_lt_256 hb (3 * k + 1)
  unfold sampleV2
  rw [mask8_eq hb2, orLow_eq (by omega) hb1]
  have h15 : bytes.getD (3 * k + 2) 0 % 16 ≤ 15 := by omega
  constructor
  · omega
  · omega

/-- CLAIM C1.  For every 54-byte frame (bytes below 256), the decoder returns
exactly 36 signed integers, each in `[-2048, 2047]`; the sample at position
`2*k` is `v1` of the `k`-th byte triplet and the sample at `2*k+1` is its
`v2` (append `v1` then `v2`, in byte order); and on the fixture triplet
`b0 = 0x34, b1 = 0x12, b2 = 0x01` the first two decoded samples are
`-1996` and `-1774`. -/
theorem decode_returns_36_samples_in_range (bytes : List Nat)
    (hlen : bytes.length = 54) (hb : ∀ b ∈ bytes, b < 256) :
    (decodeBytesToSamples bytes).length = 36 ∧
    (∀ v ∈ decodeBytesToSamples bytes, -2048 ≤ v ∧ v ≤ 2047) ∧
    (∀ k, k < 18 →
      (decodeBytesToSamples bytes).getD (2 * k) 0 = sampleV1 bytes k ∧
      (decodeBytesToSamples bytes).getD (2 * k + 1) 0 = sampleV2 bytes k) ∧
    (decodeBytesToSamples ([0x34, 0x12, 0x01] ++ List.replicate 51 0)).take 2 =
      [-1996, -1774] := by
  refine ⟨decode_length bytes, ?_, ?_, by decide⟩
  · intro v hv
    rw [decode_eq_pairFlat, List.mem_flatMap] at hv
    obtain ⟨k, _, hv⟩ := hv
    simp only [List.mem_cons, List.not_mem_nil, or_false] at hv
    rcases hv with rfl | rfl
    · exact sampleV1_bound hb k
    · exact sampleV2_bound hb k
  · intro k hk
    rw [decode_eq_pairFlat]
    exact pairFlat_getD 18 k _ _ hk

/-- Witness for C1 at the spec fixture frame
`[0x34, 0x12, 0x01]` followed by 51 zero bytes. -/
theorem decode_returns_36_samples_in_range_witness :
    ([0x34, 0x12, 0x01] ++ List.replicate 51 0 : List Nat).length = 54 ∧
    (∀ b ∈ ([0x34, 0x12, 0x01] ++ List.replicate 51 0 : List Nat), b < 256) ∧
    ((decodeBytesToSamples ([0x34, 0x12, 0x01] ++ List.replicate 51 0)).length = 36 ∧
     (∀ v ∈ decodeBytesToSamples ([0x34, 0x12, 0x01] ++ List.replicate 51 0),
        -2048 ≤ v ∧ v ≤ 2047) ∧
     (∀ k, k < 18 →
       (decodeBytesToSamples ([0x34, 0x12, 0x01] ++ List.replicate 51 0)).getD (2 * k) 0 =
         sampleV1 ([0x34, 0x12, 0x01] ++ List.replicate 51 0) k ∧
       (decodeBytesToSamples ([0x34, 0x12, 0x01] ++ List.replicate 51 0)).getD (2 * k + 1) 0 =
         sampleV2 ([0x34, 0x12, 0x01] ++ List.replicate 51 0) k) ∧
     (decodeBytesToSamples ([0x34, 0x12, 0x01] ++ List.replicate 51 0)).take 2 =
       [-1996, -1774]) :=
  ⟨by decide, by decide,
   decode_returns_36_samples_in_range _ (by decide) (by decide)⟩

/-- CLAIM C10.  Trailing bytes beyond the first 54 are ignored: on any
byte array longer than 54, the decoder returns exactly the same 36 samples
as on the array's first 54 bytes. -/
theorem decode_ignores_trailing_bytes (bytes : List Nat) (h : 54 < bytes.length) :
    decodeBytesToSamples bytes = decodeBytesToSamples (bytes.take 54) ∧
    (decodeBytesToSamples bytes).length = 36 := by
  refine ⟨?_, decode_length bytes⟩
  unfold decodeBytesToSamples
  rw [List.flatMap_def, List.flatMap_def]
  refine congrArg List.flatten (List.map_congr_left ?_)
  intro k hk
  rw [List.mem_range] at hk
  have e : ∀ i, i < 54 → (bytes.take 54).getD i 0 = bytes.getD i 0 := by
    intro i hi
    simp only [List.getD_eq_getElem?_getD, List.getElem?_take_of_lt hi]
  rw [e (3 * k) (by omega), e (3 * k + 1) (by omega), e (3 * k + 2) (by omega)]

/-- Witness for C10 at a concrete 55-byte array. -/
theorem decode_ignores_trailing_bytes_witness :
    54 < (List.replicate 55 7 : List Nat).length ∧
    (decodeBytesToSamples (List.replicate 55 7) =
       decodeBytesToSamples ((List.replicate 55 7).take 54) ∧
     (decodeBytesToSamples (List.replicate 55 7)).length = 36) :=
  ⟨by decide, decode_ignores_trailing_bytes _ (by decide)⟩

/-- COUNTEREXAMPLE to C2: the decoder performs no length validation.  The
empty byte array (length 0 ≠ 54) and the empty hex string (length 0 ≠ 108)
are not rejected: both decode to a full 36-sample output (every missing
byte reads as 0, giving sample value `-2048`). -/
theorem decode_no_length_check_counterexample :
    decodeBytesToSamples [] = List.replicate 36 (-2048) ∧
    decodeHexToSamples "" = List.replicate 36 (-2048) := by
  constructor <;> decide

/-! ### Live buffer (`setLiveData` updater shared by serial and BLE paths) -/

/-- An element of the `liveData` plot buffer. -/
structure LivePoint where
  x : Nat
  raw : Int
  filtered : Int
  seq : Nat
  deriving DecidableEq, Repr

/-- `MAX_PLOT = 2000`: the live-buffer capacity. -/
def MAX_PLOT : Nat := 2000

/-- The push loop `for (const s of samples) next.push({x: 0, raw: s,
filtered: s, seq})`. -/
def mkPoints (samples : List Int) (seq : Nat) : List LivePoint :=
  samples.map (fun s => { x := 0, raw := s, filtered := s, seq := seq })

/-- The `setLiveData` updater used identically by `readSerialData` and
`handleBLEData`: append the new points, trim from the front with
`slice(next.length - MAX_PLOT)` when over capacity, then re-index with
`next.map((p, i) => ({...p, x: i}))`. -/
def appendBatch (prev : List LivePoint) (samples : List Int) (seq : Nat) : List LivePoint :=
  let next := prev ++ mkPoints samples seq
  let trimmed := if next.length > MAX_PLOT then next.drop (next.length - MAX_PLOT) else next
  trimmed.mapIdx (fun i p => { p with x := i })

theorem mkPoints_length (samples : List Int) (seq : Nat) :
    (mkPoints samples seq).length = samples.length := by
  simp [mkPoints]

theorem mkPoints_map_raw (samples : List Int) (seq : Nat) :
    (mkPoints samples seq).map LivePoint.raw = samples := by
  induction samples with
  | nil => rfl
  | cons a l ih => simpa [mkPoints] using ih

theorem reindex_map_raw (l : List LivePoint) :
    (l.mapIdx (fun i p => { p with x := i })).map LivePoint.raw = l.map LivePoint.raw := by
  apply List.ext_getElem
  · simp
  · intro i h1 h2
    simp

theorem reindex_map_x (l : List LivePoint) :
    (l.mapIdx (fun i p => { p with x := i })).map LivePoint.x = List.range l.length := by
  apply List.ext_getElem
  · simp
  · intro i h1 h2
    simp

/-- The two trim branches collapse to a single `drop` thanks to truncated
`Nat` subtraction. -/
theorem trim_eq_drop (next : List LivePoint) :
    (if next.length > MAX_PLOT then next.drop (next.length - MAX_PLOT) else next) =
      next.drop (next.length - MAX_PLOT) := by
  split
  · rfl
  · have : next.length - MAX_PLOT = 0 := by omega
    rw [this, List.drop_zero]

/-- CLAIM C3.  After every append of a decoded sample batch, the live buffer
holds at most `MAX_PLOT = 2000` elements; trimming removes the oldest
elements from the front (the raw values that remain are exactly the last
`min (|prev| + |samples|) 2000` of the old values followed by the new ones,
in arrival order); and the element at each position `i` has its `x` index
field equal to `i` (the buffer's `x` fields are exactly
`0, 1, ..., len-1`). -/
theorem live_buffer_bounded_and_reindexed (prev : List LivePoint) (samples : List Int) (seq : Nat) :
    (appendBatch prev samples seq).length ≤ MAX_PLOT ∧
    (appendBatch prev samples seq).map LivePoint.raw =
      (prev.map LivePoint.raw ++ samples).drop (prev.length + samples.length - MAX_PLOT) ∧
    (appendBatch prev samples seq).map LivePoint.x =
      List.range (appendBatch prev samples seq).length := by
  have hnext : (prev ++ mkPoints samples seq).length = prev.length + samples.length := by
    simp [mkPoints_length]
  unfold appendBatch
  simp only [trim_eq_drop]
  refine ⟨?_, ?_, ?_⟩
  · simp only [List.length_mapIdx, List.length_drop, hnext]
    unfold MAX_PLOT
    omega
  · rw [reindex_map_raw, List.map_drop, List.map_append, mkPoints_map_raw, hnext]
  · rw [reindex_map_x, List.length_mapIdx]

/-! ### BLE notification handler (`handleBLEData`) -/

/-- `handleBLEData(event)`: packets shorter than 56 bytes are ignored; a
packet whose first byte is not `0x00` is ignored; otherwise the sequence is
`bytes[1] & 0x0F`, the payload is `bytes.slice(2, 56)`, the decoded samples
are appended to the CSV buffer when enabled and merged into the live
buffer.  Returns the new `(csv buffer, live buffer)` pair. -/
def handleBLEData (csvEnabled : Bool) (csvBuf : List Int) (live : List LivePoint)
    (packet : List Nat) : List Int × List LivePoint :=
  if 56 ≤ packet.length then
    if packet.getD 0 0 = 0 then
      let seq := (packet.getD 1 0) &&& 0x0F
      let payload := (packet.drop 2).take 54
      let samples := decodeBytesToSamples payload
      ((if csvEnabled then csvBuf ++ samples else csvBuf), appendBatch live samples seq)
    else (csvBuf, live)
  else (csvBuf, live)

/-- AMENDED C2.  The decode functions perform no length validation of their
own: on any input whatsoever they return exactly 36 samples, reading the
first 54 bytes and treating missing bytes as 0.  Wrong-length frames are
instead rejected upstream before the decoder is reached: the BLE handler
ignores packets shorter than 56 bytes (the serial line matcher's
108-hex-character requirement is the subject of C7). -/
theorem decode_no_length_validation_amended :
    (∀ bytes : List Nat, (decodeBytesToSamples bytes).length = 36) ∧
    (∀ s : String, (decodeHexToSamples s).length = 36) ∧
    (∀ (en : Bool) (csv : List Int) (live : List LivePoint) (pkt : List Nat),
      pkt.length < 56 → handleBLEData en csv live pkt = (csv, live)) := by
  refine ⟨decode_length, fun s => decode_length _, ?_⟩
  intro en csv live pkt hlen
  unfold handleBLEData
  rw [if_neg (by omega)]

/-- Witness for the amended C2 at a concrete short packet. -/
theorem decode_no_length_validation_amended_witness :
    ([0] : List Nat).length < 56 ∧ handleBLEData true [] [] [0] = ([], []) :=
  ⟨by decide, decode_no_length_validation_amended.2.2 true [] [] [0] (by decide)⟩

/-! ### CSV accumulator flush (`saveCSVIfEnabled`) -/

/-- The CSV text `'index,raw\n'` followed by one `index,value` row per
sample, built by the `forEach` loop. -/
def csvContent (buf : List Int) : String :=
  buf.mapIdx (fun i v => toString i ++ "," ++ toString v ++ "\n") |>.foldl (· ++ ·) "index,raw\n"

/-- `saveCSVIfEnabled()`: when CSV is disabled, no folder handle is set, or
the accumulated buffer is empty, the buffer is cleared and the function
returns without writing.  Otherwise the CSV content is handed to the
filesystem write and the buffer is cleared — on the success path and on the
catch (write-failure) path alike.  The first component is the content given
to the write (`none` = no write attempted); the second is the buffer after
the call. -/
def saveCSVIfEnabled (csvEnabled hasFolder : Bool) (csvData : List Int) :
    Option String × List Int :=
  if ¬csvEnabled ∨ ¬hasFolder ∨ csvData.length = 0 then (none, [])
  else (some (csvContent csvData), [])

/-- CLAIM C8.  The flush performs no filesystem write exactly when CSV is
disabled, no destination folder is configured, or the buffer is empty; and
in every case the CSV buffer is empty after the call returns. -/
theorem csv_flush_guard_and_always_clears (en hasFolder : Bool) (buf : List Int) :
    ((saveCSVIfEnabled en hasFolder buf).1 = none ↔
      (en = false ∨ hasFolder = false ∨ buf = [])) ∧
    (saveCSVIfEnabled en hasFolder buf).2 = [] := by
  cases en <;> cases hasFolder <;> cases buf <;> simp [saveCSVIfEnabled]

/-! ### Stop sequences (`stopSerialStreaming`, `stopBLEStreaming`) -/

/-- Observable steps of the two stop routines, in program order.  The traces
model the success path with a connected device (the guard returns early when
no port / RX characteristic is held, performing none of these steps). -/
inductive StopEvent where
  | clearStreamingFlag
  | cancelReader
  | drainDelay (ms : Nat)
  | writeCommand (bytes : List Nat)
  | removeListener
  | stopNotifications
  | setIsRunningFalse
  | saveCSV
  deriving DecidableEq, Repr

/-- `"B0\r\n"` as the bytes produced by `TextEncoder`. -/
def serialStopCommandBytes : List Nat := [0x42, 0x30, 0x0D, 0x0A]

/-- The BLE stop command `[0xFE, 0x00, 0x42, 0x00, 0x00]`. -/
def bleStopCommandBytes : List Nat := [0xFE, 0x00, 0x42, 0x00, 0x00]

/-- `stopSerialStreaming()`: clear the streaming flag, cancel the reader if
one is active, wait 100 ms, write `B0\r\n`, clear `isRunning`, flush CSV. -/
def stopSerialStreaming (hasReader : Bool) : List StopEvent :=
  [.clearStreamingFlag] ++ (if hasReader then [.cancelReader] else []) ++
  [.drainDelay 100, .writeCommand serialStopCommandBytes, .setIsRunningFalse, .saveCSV]

/-- `stopBLEStreaming()`: clear the streaming flag, write the stop command,
then remove the notification listener if one is registered, stop
notifications, clear `isRunning`, flush CSV. -/
def stopBLEStreaming (hasHandler : Bool) : List StopEvent :=
  [.clearStreamingFlag, .writeCommand bleStopCommandBytes] ++
  (if hasHandler then [.removeListener] else []) ++
  [.stopNotifications, .setIsRunningFalse, .saveCSV]

/-- `a` occurs strictly before `b` in the trace `tr`. -/
def occursBefore (a b : StopEvent) (tr : List StopEvent) : Prop :=
  a ∈ tr ∧ b ∈ tr ∧ tr.indexOf a < tr.indexOf b

instance (a b : StopEvent) (tr : List StopEvent) : Decidable (occursBefore a b tr) := by
  unfold occursBefore
  infer_instance

/-- COUNTEREXAMPLE to C5: in the BLE stop routine (with a registered
notification handler) the stop command `[0xFE,0x00,0x42,0x00,0x00]` is
written to the device strictly BEFORE the notification listener is
unregistered, not after as the claim requires. -/
theorem ble_stop_writes_before_unregister_counterexample :
    ¬ occursBefore .removeListener (.writeCommand bleStopCommandBytes)
        (stopBLEStreaming true) ∧
    occursBefore (.writeCommand bleStopCommandBytes) .removeListener
        (stopBLEStreaming true) := by
  decide

/-- AMENDED C5.  Serial stop does cancel the in-flight reader and wait the
100 ms drain delay strictly before the `B0\r\n` stop write (with or without
an active reader, the delay precedes the write).  BLE stop, however, writes
the stop command `[0xFE,0x00,0x42,0x00,0x00]` first and only then
unregisters the notification listener and stops notifications. -/
theorem stop_sequence_ordering_amended :
    occursBefore .clearStreamingFlag .cancelReader (stopSerialStreaming true) ∧
    occursBefore .cancelReader (.drainDelay 100) (stopSerialStreaming true) ∧
    occursBefore (.drainDelay 100) (.writeCommand serialStopCommandBytes)
      (stopSerialStreaming true) ∧
    occursBefore (.drainDelay 100) (.writeCommand serialStopCommandBytes)
      (stopSerialStreaming false) ∧
    StopEvent.cancelReader ∉ stopSerialStreaming false ∧
    occursBefore .clearStreamingFlag (.writeCommand bleStopCommandBytes)
      (stopBLEStreaming true) ∧
    occursBefore (.writeCommand bleStopCommandBytes) .removeListener
      (stopBLEStreaming true) ∧
    occursBefore (.writeCommand bleStopCommandBytes) .stopNotifications
      (stopBLEStreaming true) ∧
    occursBefore (.writeCommand bleStopCommandBytes) .stopNotifications
      (stopBLEStreaming false) := by
  decide

/-! ### Start controller (`handleStart`) -/

inductive ConnStatus where
  | disconnected
  | connected
  | error
  deriving DecidableEq, Repr

/-- Outcome of one `handleStart()` invocation. -/
structure StartOutcome where
  buffersReset : Bool
  connectAttempted : Bool
  settleWaitDone : Bool
  statusAfterConnect : ConnStatus
  streamingStarted : Bool
  notConnectedErrorLogged : Bool
  deriving DecidableEq, Repr

/-- `handleStart()`: reset the live buffer and CSV accumulator; if the
captured `connStatus` is not `'connected'`, run `handleConnect()` (which
sets the React state to `connectResult`) and wait 500 ms; then test
`if (connStatus === 'connected')` to either start streaming or log
`'Device not connected'`.

`connStatus` here is the constant captured by the handler's closure at
render time: `setConnStatus` inside `handleConnect` updates the React state
(modelled by `statusAfterConnect`) but cannot change the captured binding,
so the final test re-reads the stale captured value. -/
def handleStart (connStatus : ConnStatus) (connectResult : ConnStatus) : StartOutcome :=
  let attempted := connStatus != ConnStatus.connected
  let statusNow := if connStatus != ConnStatus.connected then connectResult else connStatus
  { buffersReset := true
    connectAttempted := attempted
    settleWaitDone := attempted
    statusAfterConnect := statusNow
    streamingStarted := connStatus == ConnStatus.connected
    notConnectedErrorLogged := connStatus != ConnStatus.connected }

/-- C6 (code bug).  Starting from a disconnected state with a device whose
connect SUCCEEDS (the React status after the implicit connect is
`connected`), `handleStart` still logs `'Device not connected'` and never
delegates streaming start to the adapter: the post-connect test re-reads
the stale closure-captured `connStatus`, so the success of the connect is
invisible to it.  The claim (and spec §4.4) says streaming starts and the
error is reported only when the connect failed. -/
theorem handleStart_stale_status_bug :
    handleStart .disconnected .connected =
      { buffersReset := true
        connectAttempted := true
        settleWaitDone := true
        statusAfterConnect := .connected
        streamingStarted := false
        notConnectedErrorLogged := true } ∧
    (∀ result : ConnStatus, (handleStart .disconnected result).streamingStarted = false) := by
  constructor
  · decide
  · intro result
    cases result <;> decide

/-! ### Gain command validation (`handleSendGain`) -/

/-- The characters matched by JS `\s` / trimmed by `String.prototype.trim`,
restricted to ASCII. -/
def jsWhitespaceChar (c : Char) : Bool :=
  c = ' ' || c = '\t' || c = '\n' || c = '\r' || c = '\x0b' || c = '\x0c'

/-- JS `trim()`: strip leading and trailing whitespace. -/
def jsTrimChars (cs : List Char) : List Char :=
  ((cs.dropWhile jsWhitespaceChar).reverse.dropWhile jsWhitespaceChar).reverse

/-- Numeric value of a digit string (most significant first; code 48 is
`'0'`). -/
def digitsToNat (cs : List Char) : Nat :=
  cs.foldl (fun a c => 10 * a + c.toNat - 48) 0

/-- Decimal numeric literal: optional sign, integer digits, optional `.` and
fraction digits, at least one digit overall.  `none` models NaN. -/
def parseDecimalLit (cs : List Char) : Option ℚ :=
  let signAndRest : Bool × List Char :=
    match cs with
    | '-' :: r => (true, r)
    | '+' :: r => (false, r)
    | r => (false, r)
  let neg := signAndRest.1
  let rest := signAndRest.2
  let intPart := rest.takeWhile Char.isDigit
  let rest2 := rest.dropWhile Char.isDigit
  let magnitude : Option ℚ :=
    match rest2 with
    | [] => if intPart.isEmpty then none else some (digitsToNat intPart)
    | '.' :: fr =>
      let fracPart := fr.takeWhile Char.isDigit
      let rest3 := fr.dropWhile Char.isDigit
      if !rest3.isEmpty then none
      else if intPart.isEmpty && fracPart.isEmpty then none
      else some (mkRat (digitsToNat intPart * 10 ^ fracPart.length + digitsToNat fracPart)
        (10 ^ fracPart.length))
    | _ => none
  match magnitude with
  | none => none
  | some v => some (if neg then -v else v)

/-- Model of the JS `Number()` conversion used by `handleSendGain`,
restricted to decimal literals (hex/exponent forms out of scope):
whitespace is trimmed, the empty remainder converts to 0, anything that is
not a decimal literal is NaN (`none`). -/
def jsNumber (s : String) : Option ℚ :=
  let t := jsTrimChars s.toList
  if t.isEmpty then some 0 else parseDecimalLit t

/-- `Number.isNaN(gain)`. -/
def jsIsNaN (g : Option ℚ) : Bool := g.isNone

/-- `Number.isInteger(gain)` (false on NaN). -/
def jsIsInteger (g : Option ℚ) : Bool :=
  match g with
  | none => false
  | some q => q.den == 1

/-- `gain < c` (false on NaN). -/
def jsLtNum (g : Option ℚ) (c : ℚ) : Bool :=
  match g with
  | none => false
  | some q => decide (q < c)

/-- `gain > c` (false on NaN). -/
def jsGtNum (g : Option ℚ) (c : ℚ) : Bool :=
  match g with
  | none => false
  | some q => decide (c < q)

/-- `handleSendGain()`: `gain = Number(gainValue)`; reject (user-facing
error, no transport call) when the trimmed input is empty, `gain` is NaN,
not an integer, below 0 or above 15; otherwise forward the gain to the
active transport (`setSerialGain` / `setBLEGain`).  `some n` is the
forwarded value, `none` the rejection. -/
def handleSendGain (gainValue : String) : Option ℤ :=
  let gain := jsNumber gainValue
  if (jsTrimChars gainValue.toList).isEmpty || jsIsNaN gain || !(jsIsInteger gain)
      || jsLtNum gain 0 || jsGtNum gain 15 then
    none
  else
    gain.map Rat.num

/-- CLAIM C4.  The gain is forwarded to the transport iff the input parses
(under the JS `Number` semantics) to an integer in `[0, 15]` and is not
(whitespace-)empty; the inputs `-1`, `16`, `3.5`, `""`, `"abc"` are all
rejected with no transport call, while the boundary values `0` and `15`
are accepted and forwarded. -/
theorem gain_forwarded_iff_integer_in_range :
    (∀ s : String, (∃ n : ℤ, handleSendGain s = some n) ↔
       (jsTrimChars s.toList ≠ [] ∧
        ∃ n : ℤ, jsNumber s = some (n : ℚ) ∧ 0 ≤ n ∧ n ≤ 15)) ∧
    handleSendGain "-1" = none ∧
    handleSendGain "16" = none ∧
    handleSendGain "3.5" = none ∧
    handleSendGain "" = none ∧
    handleSendGain "abc" = none ∧
    handleSendGain "0" = some 0 ∧
    handleSendGain "15" = some 15 := by
  refine ⟨?_, rfl, rfl, rfl, rfl, rfl, rfl, rfl⟩
  intro s
  constructor
  · rintro ⟨n, hn⟩
    simp only [handleSendGain] at hn
    rcases hb : ((jsTrimChars s.toList).isEmpty || jsIsNaN (jsNumber s)
        || !(jsIsInteger (jsNumber s)) || jsLtNum (jsNumber s) 0
        || jsGtNum (jsNumber s) 15) with _ | _
    · rw [hb, if_neg (by simp)] at hn
      simp only [Bool.or_eq_false_iff] at hb
      obtain ⟨⟨⟨⟨h1, _⟩, h3⟩, h4⟩, h5⟩ := hb
      rcases hq : jsNumber s with _ | q
      · rw [hq] at h3; simp [jsIsInteger] at h3
      · rw [hq] at h3 h4 h5 hn
        have hden1 : q.den = 1 := by
          simpa [jsIsInteger] using h3
        have hq_int : ((q.num : ℚ)) = q := (Rat.den_eq_one_iff q).mp hden1
        have h0 : (0 : ℚ) ≤ q := by
          simpa [jsLtNum, not_lt] using h4
        have h15 : q ≤ 15 := by
          simpa [jsGtNum, not_lt] using h5
        have hn' : n = q.num := by
          simpa using hn.symm
        refine ⟨by simpa [List.isEmpty_iff] using h1, q.num, ?_, ?_, ?_⟩
        · rw [hq_int]
        · have := hq_int ▸ h0; exact_mod_cast this
        · have := hq_int ▸ h15; exact_mod_cast this
    · rw [hb] at hn
      simp at hn
  · rintro ⟨htrim, n, hq, h0, h15⟩
    have htrim' : (jsTrimChars s.toList).isEmpty = false := by
      simpa [List.isEmpty_iff] using htrim
    refine ⟨n, ?_⟩
    unfold handleSendGain
    rw [hq]
    have hden : ((n : ℚ)).den = 1 := Rat.den_intCast n
    have hnum : ((n : ℚ)).num = n := Rat.num_intCast n
    have hlt : ¬ ((n : ℚ) < 0) := by
      rw [not_lt]
      exact_mod_cast h0
    have hgt : ¬ ((15 : ℚ) < (n : ℚ)) := by
      rw [not_lt]
      exact_mod_cast h15
    simp [jsIsNaN, jsIsInteger, jsLtNum, jsGtNum, hden, hlt, hgt, htrim', hnum]
    exact fun hc => htrim hc

/-! ### Serial read loop: line pattern and frame effect (`readSerialData`) -/

/-- The character class `[0-9A-Fa-f]`. -/
def isHexDigitChar (c : Char) : Bool :=
  ('0' ≤ c && c ≤ '9') || ('A' ≤ c && c ≤ 'F') || ('a' ≤ c && c ≤ 'f')

/-- Deterministic matcher for the line pattern
`^\s*([0-9A-Fa-f]+)\s*:\s*([0-9A-Fa-f]{108})\s*$`.  Greedy runs are exact
here because the whitespace class, the hex class and `':'` are pairwise
disjoint, so the regex admits no backtracking alternatives. -/
def matchFrameLine (cs : List Char) : Option (List Char × List Char) :=
  let cs1 := cs.dropWhile jsWhitespaceChar
  let seqD := cs1.takeWhile isHexDigitChar
  let rest := cs1.dropWhile isHexDigitChar
  if seqD.isEmpty then none
  else
    let rest2 := rest.dropWhile jsWhitespaceChar
    if rest2.head? = some ':' then
      let rest4 := rest2.tail.dropWhile jsWhitespaceChar
      let hexD := rest4.takeWhile isHexDigitChar
      let rest5 := rest4.dropWhile isHexDigitChar
      if hexD.length = 108 && rest5.all jsWhitespaceChar then some (seqD, hexD)
      else none
    else none

/-- `parseInt(seqDigits, 16)` on a nonempty hex-digit string. -/
def hexDigitsVal (cs : List Char) : Nat :=
  cs.foldl (fun a c => 16 * a + (hexCharVal c).getD 0) 0

/-- The per-line body of the serial read loop: trim the line, skip it when
empty, match it against the frame pattern; on a match take
`seq = parseInt(m1, 16) & 0xFF`, decode the 108 hex characters, push the
samples onto the CSV buffer when enabled and merge them into the live
buffer; otherwise leave both buffers unchanged (and log nothing). -/
def processLine (csvEnabled : Bool) (csvBuf : List Int) (live : List LivePoint)
    (rawLine : List Char) : List Int × List LivePoint :=
  let line := jsTrimChars rawLine
  if line.isEmpty then (csvBuf, live)
  else
    match matchFrameLine line with
    | some (seqD, hexD) =>
      let seq := hexDigitsVal seqD % 256
      let samples := decodeHexToSamples (String.mk hexD)
      ((if csvEnabled then csvBuf ++ samples else csvBuf), appendBatch live samples seq)
    | none => (csvBuf, live)

/-- Declarative reading of the line pattern: optional whitespace, a nonempty
hex-digit sequence, optional whitespace, a colon, optional whitespace,
exactly 108 hex digits, optional trailing whitespace. -/
def IsFrameLine (cs seqD hexD : List Char) : Prop :=
  ∃ w1 w2 w3 w4 : List Char,
    cs = w1 ++ seqD ++ w2 ++ ':' :: (w3 ++ hexD ++ w4) ∧
    (∀ c ∈ w1, jsWhitespaceChar c = true) ∧
    (∀ c ∈ w2, jsWhitespaceChar c = true) ∧
    (∀ c ∈ w3, jsWhitespaceChar c = true) ∧
    (∀ c ∈ w4, jsWhitespaceChar c = true) ∧
    seqD ≠ [] ∧ (∀ c ∈ seqD, isHexDigitChar c = true) ∧
    hexD.length = 108 ∧ (∀ c ∈ hexD, isHexDigitChar c = true)

theorem ws_not_hex {c : Char} (h : jsWhitespaceChar c = true) : isHexDigitChar c = false := by
  simp only [jsWhitespaceChar, Bool.or_eq_true, decide_eq_true_eq] at h
  rcases h with ((((rfl | rfl) | rfl) | rfl) | rfl) | rfl <;> decide

theorem hex_not_ws {c : Char} (h : isHexDigitChar c = true) : jsWhitespaceChar c = false := by
  rcases hws : jsWhitespaceChar c with _ | _
  · rfl
  · rw [ws_not_hex hws] at h
    cases h

theorem colon_not_ws : jsWhitespaceChar ':' = false := by decide

theorem colon_not_hex : isHexDigitChar ':' = false := by decide

/-- A hex run stops at a whitespace-or-colon continuation. -/
theorem takeWhile_hex_ws_colon (w X : List Char)
    (hw : ∀ c ∈ w, jsWhitespaceChar c = true) :
    (w ++ ':' :: X).takeWhile isHexDigitChar = [] := by
  cases w with
  | nil => simp [List.takeWhile_cons, colon_not_hex]
  | cons c t => simp [List.takeWhile_cons, ws_not_hex (hw c (by simp))]

theorem dropWhile_hex_ws_colon (w X : List Char)
    (hw : ∀ c ∈ w, jsWhitespaceChar c = true) :
    (w ++ ':' :: X).dropWhile isHexDigitChar = w ++ ':' :: X := by
  cases w with
  | nil => simp [List.dropWhile_cons, colon_not_hex]
  | cons c t => simp [List.dropWhile_cons, ws_not_hex (hw c (by simp))]

theorem takeWhile_hex_run_ws (hexD w4 : List Char)
    (hhex : ∀ c ∈ hexD, isHexDigitChar c = true)
    (hw4 : ∀ c ∈ w4, jsWhitespaceChar c = true) :
    (hexD ++ w4).takeWhile isHexDigitChar = hexD := by
  have h4 : w4.takeWhile isHexDigitChar = [] := by
    cases w4 with
    | nil => rfl
    | cons c t => simp [List.takeWhile_cons, ws_not_hex (hw4 c (by simp))]
  rw [List.takeWhile_append_of_pos hhex, h4, List.append_nil]

theorem dropWhile_hex_run_ws (hexD w4 : List Char)
    (hhex : ∀ c ∈ hexD, isHexDigitChar c = true)
    (hw4 : ∀ c ∈ w4, jsWhitespaceChar c = true) :
    (hexD ++ w4).dropWhile isHexDigitChar = w4 := by
  rw [List.dropWhile_append_of_pos hhex]
  cases w4 with
  | nil => rfl
  | cons c t => simp [List.dropWhile_cons, ws_not_hex (hw4 c (by simp))]

theorem matchFrameLine_complete {cs seqD hexD : List Char}
    (h : IsFrameLine cs seqD hexD) : matchFrameLine cs = some (seqD, hexD) := by
  obtain ⟨w1, w2, w3, w4, hcs, hw1, hw2, hw3, hw4, hne, hseqHex, hlen, hhex⟩ := h
  obtain ⟨s0, st, rfl⟩ : ∃ s0 st, seqD = s0 :: st := by
    cases seqD with
    | nil => exact absurd rfl hne
    | cons a b => exact ⟨a, b, rfl⟩
  obtain ⟨h0, ht, rfl⟩ : ∃ h0 ht, hexD = h0 :: ht := by
    cases hexD with
    | nil => simp at hlen
    | cons a b => exact ⟨a, b, rfl⟩
  subst hcs
  have step1 :
      ((w1 ++ (s0 :: st) ++ w2 ++ ':' :: (w3 ++ (h0 :: ht) ++ w4)).dropWhile
        jsWhitespaceChar) = (s0 :: st) ++ w2 ++ ':' :: (w3 ++ (h0 :: ht) ++ w4) := by
    rw [List.append_assoc, List.append_assoc, List.dropWhile_append_of_pos hw1]
    rw [List.cons_append, List.dropWhile_cons_of_neg
      (by rw [hex_not_ws (hseqHex s0 (by simp))]; simp)]
    simp [List.append_assoc]
  have step2 :
      (((s0 :: st) ++ w2 ++ ':' :: (w3 ++ (h0 :: ht) ++ w4)).takeWhile
        isHexDigitChar) = s0 :: st := by
    rw [List.append_assoc, List.takeWhile_append_of_pos hseqHex,
      takeWhile_hex_ws_colon w2 _ hw2, List.append_nil]
  have step3 :
      (((s0 :: st) ++ w2 ++ ':' :: (w3 ++ (h0 :: ht) ++ w4)).dropWhile
        isHexDigitChar) = w2 ++ ':' :: (w3 ++ (h0 :: ht) ++ w4) := by
    rw [List.append_assoc, List.dropWhile_append_of_pos hseqHex,
      dropWhile_hex_ws_colon w2 _ hw2]
  have step4 :
      ((w2 ++ ':' :: (w3 ++ (h0 :: ht) ++ w4)).dropWhile jsWhitespaceChar) =
        ':' :: (w3 ++ (h0 :: ht) ++ w4) := by
    rw [List.dropWhile_append_of_pos hw2, List.dropWhile_cons_of_neg (by rw [colon_not_ws]; simp)]
  have step5 :
      ((w3 ++ (h0 :: ht) ++ w4).dropWhile jsWhitespaceChar) = (h0 :: ht) ++ w4 := by
    rw [List.append_assoc, List.dropWhile_append_of_pos hw3, List.cons_append,
      List.dropWhile_cons_of_neg (by rw [hex_not_ws (hhex h0 (by simp))]; simp)]
  have step6 : (((h0 :: ht) ++ w4).takeWhile isHexDigitChar) = h0 :: ht :=
    takeWhile_hex_run_ws _ _ hhex hw4
  have step7 : (((h0 :: ht) ++ w4).dropWhile isHexDigitChar) = w4 :=
    dropWhile_hex_run_ws _ _ hhex hw4
  have hcnd : (decide ((h0 :: ht).length = 108) && w4.all jsWhitespaceChar) = true := by
    simp only [List.all_eq_true, Bool.and_eq_true, decide_eq_true_eq]
    exact ⟨hlen, hw4⟩
  simp only [matchFrameLine, step1, step2, step3, step4, List.head?_cons,
    List.tail_cons, step5, step6, step7, List.isEmpty_cons, Bool.false_eq_true,
    if_false, hcnd, if_true]

theorem matchFrameLine_sound {cs seqD hexD : List Char}
    (h : matchFrameLine cs = some (seqD, hexD)) : IsFrameLine cs seqD hexD := by
  simp only [matchFrameLine] at h
  split at h
  · cases h
  · next hne =>
    split at h
    · next hcolon =>
      split at h
      · next hcond =>
        injection h with h'
        injection h' with hseq hhex
        subst hseq
        subst hhex
        obtain ⟨r3, hr2⟩ : ∃ r3,
            ((cs.dropWhile jsWhitespaceChar).dropWhile isHexDigitChar).dropWhile
              jsWhitespaceChar = ':' :: r3 := by
          cases hx : ((cs.dropWhile jsWhitespaceChar).dropWhile isHexDigitChar).dropWhile
              jsWhitespaceChar with
          | nil => rw [hx] at hcolon; cases hcolon
          | cons c t =>
            rw [hx] at hcolon
            simp only [List.head?_cons, Option.some_inj] at hcolon
            exact ⟨t, by rw [hcolon]⟩
        rw [hr2] at hcond ⊢
        simp only [List.tail_cons] at hcond ⊢
        simp only [Bool.and_eq_true, decide_eq_true_eq, List.all_eq_true] at hcond
        refine ⟨cs.takeWhile jsWhitespaceChar,
          ((cs.dropWhile jsWhitespaceChar).dropWhile isHexDigitChar).takeWhile
            jsWhitespaceChar,
          r3.takeWhile jsWhitespaceChar,
          (r3.dropWhile jsWhitespaceChar).dropWhile isHexDigitChar,
          ?_, ?_, ?_, ?_, ?_, ?_, ?_, ?_, ?_⟩
        · conv_lhs =>
            rw [← List.takeWhile_append_dropWhile jsWhitespaceChar cs]
            rw [← List.takeWhile_append_dropWhile isHexDigitChar
              (cs.dropWhile jsWhitespaceChar)]
            rw [← List.takeWhile_append_dropWhile jsWhitespaceChar
              ((cs.dropWhile jsWhitespaceChar).dropWhile isHexDigitChar)]
            rw [hr2]
            rw [← List.takeWhile_append_dropWhile jsWhitespaceChar r3]
            rw [← List.takeWhile_append_dropWhile isHexDigitChar
              (r3.dropWhile jsWhitespaceChar)]
          simp [List.append_assoc]
        · exact fun c hc => List.mem_takeWhile_imp hc
        · exact fun c hc => List.mem_takeWhile_imp hc
        · exact fun c hc => List.mem_takeWhile_imp hc
        · exact fun c hc => hcond.2 c hc
        · intro hnil
          rw [hnil] at hne
          simp at hne
        · exact fun c hc => List.mem_takeWhile_imp hc
        · exact hcond.1
        · exact fun c hc => List.mem_takeWhile_imp hc
      · cases h
    · cases h

/-- CLAIM C7.  A line is matched by the serial read loop exactly when it has
the shape "optional whitespace, nonempty hex sequence number, optional
whitespace, colon, optional whitespace, exactly 108 hex characters,
optional whitespace"; matched lines append their decoded samples to the
live buffer and (when enabled) the CSV buffer; every non-matching line
leaves both buffers unchanged, with no user-facing error. -/
theorem serial_line_matched_iff_frame_effect :
    (∀ cs seqD hexD : List Char,
       matchFrameLine cs = some (seqD, hexD) ↔ IsFrameLine cs seqD hexD) ∧
    (∀ (en : Bool) (csv : List Int) (live : List LivePoint) (rawLine : List Char),
       (∀ seqD hexD, ¬ IsFrameLine (jsTrimChars rawLine) seqD hexD) →
       processLine en csv live rawLine = (csv, live)) ∧
    (∀ (en : Bool) (csv : List Int) (live : List LivePoint) (rawLine : List Char)
       (seqD hexD : List Char),
       IsFrameLine (jsTrimChars rawLine) seqD hexD →
       processLine en csv live rawLine =
         ((if en then csv ++ decodeHexToSamples (String.mk hexD) else csv),
          appendBatch live (decodeHexToSamples (String.mk hexD))
            (hexDigitsVal seqD % 256))) := by
  refine ⟨fun cs seqD hexD => ⟨matchFrameLine_sound, matchFrameLine_complete⟩, ?_, ?_⟩
  · intro en csv live rawLine hno
    simp only [processLine]
    split
    · rfl
    · rcases hm : matchFrameLine (jsTrimChars rawLine) with _ | ⟨seqD, hexD⟩
      · simp [hm]
      · exact absurd (matchFrameLine_sound hm) (hno seqD hexD)
  · intro en csv live rawLine seqD hexD hIs
    have hm : matchFrameLine (jsTrimChars rawLine) = some (seqD, hexD) :=
      matchFrameLine_complete hIs
    have hnonempty : (jsTrimChars rawLine).isEmpty = false := by
      obtain ⟨w1, w2, w3, w4, hcs, -, -, -, -, -, -, -, -⟩ := hIs
      rw [hcs]
      simp
    simp only [processLine, hnonempty, Bool.false_eq_true, if_false, hm]

/-- Witness for C7 at the concrete line `1:` followed by 108 `'0'`
characters. -/
theorem serial_line_matched_iff_frame_effect_witness :
    IsFrameLine (jsTrimChars ('1' :: ':' :: List.replicate 108 '0'))
      ['1'] (List.replicate 108 '0') ∧
    processLine true [] [] ('1' :: ':' :: List.replicate 108 '0') =
      ((if true then [] ++ decodeHexToSamples (String.mk (List.replicate 108 '0')) else []),
       appendBatch [] (decodeHexToSamples (String.mk (List.replicate 108 '0')))
         (hexDigitsVal ['1'] % 256)) := by
  have htrim : jsTrimChars ('1' :: ':' :: List.replicate 108 '0') =
      '1' :: ':' :: List.replicate 108 '0' := by decide
  have hIs : IsFrameLine (jsTrimChars ('1' :: ':' :: List.replicate 108 '0'))
      ['1'] (List.replicate 108 '0') := by
    rw [htrim]
    refine ⟨[], [], [], [], ?_, ?_, ?_, ?_, ?_, ?_, ?_, ?_, ?_⟩ <;> decide
  exact ⟨hIs, serial_line_matched_iff_frame_effect.2.2 true [] [] _ _ _ hIs⟩

/-! ### Round trip: reference encoder and the decoder (C9) -/

/-- Reference nibble-packing encoder from the spec: a pair of samples in
`[-2048, 2047]` becomes a triplet — low byte of (sample1 + 2048), low byte
of (sample2 + 2048), and a shared byte carrying both high nibbles (sample1's
in the high nibble, sample2's in the low nibble, matching the decoder's
`<< 4` / `<< 8` extraction). -/
def referenceEncodePair (s1 s2 : Int) : List Nat :=
  let r1 := (s1 + 2048).toNat
  let r2 := (s2 + 2048).toNat
  [r1 % 256, r2 % 256, r1 / 256 * 16 + r2 / 256]

/-- Reference encoder over a sample list, two samples per triplet. -/
def referenceEncodeSamples : List Int → List Nat
  | s1 :: s2 :: rest => referenceEncodePair s1 s2 ++ referenceEncodeSamples rest
  | _ => []

/-- Uppercase hex digit for a nibble (code 48 is `'0'`, code 55 + 10 is
`'A'`). -/
def natToHexDigit (n : Nat) : Char :=
  Char.ofNat (if n < 10 then 48 + n else 55 + n)

/-- A byte list as hex text, two characters per byte. -/
def referenceBytesToHex (bs : List Nat) : List Char :=
  bs.flatMap (fun b => [natToHexDigit (b / 16), natToHexDigit (b % 16)])

/-- Decoder restricted to the first `n` triplet rounds (the source fixes
`n = 18`). -/
def decodeRounds (n : Nat) (bytes : List Nat) : List Int :=
  (List.range n).flatMap (fun k => [sampleV1 bytes k, sampleV2 bytes k])

theorem decode_eq_decodeRounds (bytes : List Nat) :
    decodeBytesToSamples bytes = decodeRounds 18 bytes := rfl

theorem flatMap_congr_on_range {n : Nat} {f g : Nat → List α}
    (h : ∀ k < n, f k = g k) :
    (List.range n).flatMap f = (List.range n).flatMap g := by
  rw [List.flatMap_def, List.flatMap_def]
  exact congrArg List.flatten (List.map_congr_left (fun k hk => h k (List.mem_range.mp hk)))

theorem sampleV1_cons3 (b0 b1 b2 : Nat) (rest : List Nat) (k : Nat) :
    sampleV1 (b0 :: b1 :: b2 :: rest) (k + 1) = sampleV1 rest k := by
  unfold sampleV1
  rw [show 3 * (k + 1) + 2 = 3 * k + 2 + 1 + 1 + 1 from by omega,
    show 3 * (k + 1) = 3 * k + 1 + 1 + 1 from by omega]
  simp only [List.getD_cons_succ]

theorem sampleV2_cons3 (b0 b1 b2 : Nat) (rest : List Nat) (k : Nat) :
    sampleV2 (b0 :: b1 :: b2 :: rest) (k + 1) = sampleV2 rest k := by
  unfold sampleV2
  rw [show 3 * (k + 1) + 1 = 3 * k + 1 + 1 + 1 + 1 from by omega,
    show 3 * (k + 1) + 2 = 3 * k + 2 + 1 + 1 + 1 from by omega]
  simp only [List.getD_cons_succ]

theorem decode_head_pair (s1 s2 : Int) (rest : List Nat)
    (h1 : -2048 ≤ s1 ∧ s1 ≤ 2047) (h2 : -2048 ≤ s2 ∧ s2 ≤ 2047) :
    sampleV1 (referenceEncodePair s1 s2 ++ rest) 0 = s1 ∧
    sampleV2 (referenceEncodePair s1 s2 ++ rest) 0 = s2 := by
  have hb2 : (s1 + 2048).toNat / 256 * 16 + (s2 + 2048).toNat / 256 < 256 := by omega
  constructor
  · unfold sampleV1 referenceEncodePair
    simp only [List.cons_append, Nat.mul_zero, List.getD_cons_zero, List.getD_cons_succ,
      Nat.zero_add]
    rw [mask4_eq hb2, orLow_eq (by omega) (by omega)]
    omega
  · unfold sampleV2 referenceEncodePair
    simp only [List.cons_append, Nat.mul_zero, List.getD_cons_zero, List.getD_cons_succ,
      Nat.zero_add]
    rw [mask8_eq hb2, orLow_eq (by omega) (by omega)]
    omega

theorem decodeRounds_encode : ∀ (n : Nat) (samples : List Int),
    samples.length = 2 * n →
    (∀ s ∈ samples, -2048 ≤ s ∧ s ≤ 2047) →
    decodeRounds n (referenceEncodeSamples samples) = samples := by
  intro n
  induction n with
  | zero =>
    intro samples hlen _
    have : samples = [] := List.length_eq_zero.mp (by omega)
    subst this
    rfl
  | succ m ih =>
    intro samples hlen hrange
    obtain ⟨s1, s2, rest, rfl⟩ : ∃ s1 s2 rest, samples = s1 :: s2 :: rest := by
      cases samples with
      | nil => simp at hlen
      | cons a t =>
        cases t with
        | nil => simp at hlen; omega
        | cons b u => exact ⟨a, b, u, rfl⟩
    have h1 : -2048 ≤ s1 ∧ s1 ≤ 2047 := hrange s1 (by simp)
    have h2 : -2048 ≤ s2 ∧ s2 ≤ 2047 := hrange s2 (by simp)
    have hrest : ∀ s ∈ rest, -2048 ≤ s ∧ s ≤ 2047 :=
      fun s hs => hrange s (by simp [hs])
    have hlrest : rest.length = 2 * m := by
      simp only [List.length_cons] at hlen
      omega
    have henc : referenceEncodeSamples (s1 :: s2 :: rest) =
        referenceEncodePair s1 s2 ++ referenceEncodeSamples rest := rfl
    have hcons : referenceEncodePair s1 s2 ++ referenceEncodeSamples rest =
        (s1 + 2048).toNat % 256 :: (s2 + 2048).toNat % 256 ::
          ((s1 + 2048).toNat / 256 * 16 + (s2 + 2048).toNat / 256) ::
          referenceEncodeSamples rest := rfl
    unfold decodeRounds
    rw [henc, range_flatMap_succ]
    have hhead := decode_head_pair s1 s2 (referenceEncodeSamples rest) h1 h2
    rw [hhead.1, hhead.2]
    have htail :
        (List.range m).flatMap (fun k =>
          [sampleV1 (referenceEncodePair s1 s2 ++ referenceEncodeSamples rest) (k + 1),
           sampleV2 (referenceEncodePair s1 s2 ++ referenceEncodeSamples rest) (k + 1)]) =
        (List.range m).flatMap (fun k =>
          [sampleV1 (referenceEncodeSamples rest) k,
           sampleV2 (referenceEncodeSamples rest) k]) := by
      refine flatMap_congr_on_range (fun k _ => ?_)
      rw [hcons, sampleV1_cons3, sampleV2_cons3]
    rw [htail]
    have := ih rest hlrest hrest
    unfold decodeRounds at this
    rw [this]
    rfl

theorem referenceEncodeSamples_length : ∀ (n : Nat) (samples : List Int),
    samples.length = 2 * n → (referenceEncodeSamples samples).length = 3 * n := by
  intro n
  induction n with
  | zero =>
    intro samples hlen
    have : samples = [] := List.length_eq_zero.mp (by omega)
    subst this
    rfl
  | succ m ih =>
    intro samples hlen
    obtain ⟨s1, s2, rest, rfl⟩ : ∃ s1 s2 rest, samples = s1 :: s2 :: rest := by
      cases samples with
      | nil => simp at hlen
      | cons a t =>
        cases t with
        | nil => simp at hlen; omega
        | cons b u => exact ⟨a, b, u, rfl⟩
    have hlrest : rest.length = 2 * m := by
      simp only [List.length_cons] at hlen
      omega
    show (referenceEncodePair s1 s2 ++ referenceEncodeSamples rest).length = 3 * (m + 1)
    rw [List.length_append, ih rest hlrest]
    simp [referenceEncodePair]
    omega

theorem referenceEncodeSamples_bytes_lt : ∀ (samples : List Int),
    (∀ s ∈ samples, -2048 ≤ s ∧ s ≤ 2047) →
    ∀ b ∈ referenceEncodeSamples samples, b < 256 := by
  intro samples
  induction samples using referenceEncodeSamples.induct with
  | case1 s1 s2 rest ih =>
    intro hrange b hb
    have h1 := hrange s1 (by simp)
    have h2 := hrange s2 (by simp)
    rcases List.mem_append.mp hb with hb' | hb'
    · simp only [referenceEncodePair, List.mem_cons, List.not_mem_nil, or_false] at hb'
      rcases hb' with rfl | rfl | rfl <;> omega
    · exact ih (fun s hs => hrange s (by simp [hs])) b hb'
  | case2 samples hne =>
    intro _ b hb
    rcases samples with _ | ⟨a, _ | ⟨c, t⟩⟩
    · simp [referenceEncodeSamples] at hb
    · simp [referenceEncodeSamples] at hb
    · exact absurd rfl (hne a c t)

theorem referenceBytesToHex_length (bs : List Nat) :
    (referenceBytesToHex bs).length = 2 * bs.length := by
  induction bs with
  | nil => rfl
  | cons b t ih =>
    show (natToHexDigit (b / 16) :: natToHexDigit (b % 16) ::
      referenceBytesToHex t).length = 2 * (b :: t).length
    simp only [List.length_cons, ih]
    omega

theorem hexCharVal_natToHexDigit_fin :
    ∀ n : Fin 16, hexCharVal (natToHexDigit n.val) = some n.val := by
  decide

theorem hexCharVal_natToHexDigit {n : Nat} (h : n < 16) :
    hexCharVal (natToHexDigit n) = some n :=
  hexCharVal_natToHexDigit_fin ⟨n, h⟩

theorem hexPairs_of_referenceBytesToHex : ∀ (bs : List Nat),
    (∀ b ∈ bs, b < 256) → hexPairsToBytes (referenceBytesToHex bs) = bs := by
  intro bs
  induction bs with
  | nil => intro _ ; rfl
  | cons b t ih =>
    intro hb
    have hblt : b < 256 := hb b (by simp)
    have e : referenceBytesToHex (b :: t) =
        natToHexDigit (b / 16) :: natToHexDigit (b % 16) :: referenceBytesToHex t := rfl
    rw [e]
    show jsHexByte (natToHexDigit (b / 16)) (natToHexDigit (b % 16)) ::
      hexPairsToBytes (referenceBytesToHex t) = b :: t
    have hv1 := hexCharVal_natToHexDigit (n := b / 16) (by omega)
    have hv2 := hexCharVal_natToHexDigit (n := b % 16) (by omega)
    rw [show jsHexByte (natToHexDigit (b / 16)) (natToHexDigit (b % 16)) = b from by
      unfold jsHexByte
      rw [hv1, hv2]
      simp only []
      omega]
    rw [ih (fun x hx => hb x (by simp [hx]))]

/-- CLAIM C9.  For every sequence of 36 samples in `[-2048, 2047]`, encoding
with the reference nibble-packing encoder yields a 54-byte frame, and
decoding that frame — directly or through its 108-character hex text —
reproduces the original 36 values (the decoder is a left inverse of the
encoder). -/
theorem decode_left_inverse_of_encoder (samples : List Int)
    (hlen : samples.length = 36)
    (hrange : ∀ s ∈ samples, -2048 ≤ s ∧ s ≤ 2047) :
    (referenceEncodeSamples samples).length = 54 ∧
    (referenceBytesToHex (referenceEncodeSamples samples)).length = 108 ∧
    decodeBytesToSamples (referenceEncodeSamples samples) = samples ∧
    decodeHexToSamples
      (String.mk (referenceBytesToHex (referenceEncodeSamples samples))) = samples := by
  have hlen54 : (referenceEncodeSamples samples).length = 54 :=
    referenceEncodeSamples_length 18 samples (by omega)
  have hbytes : ∀ b ∈ referenceEncodeSamples samples, b < 256 :=
    referenceEncodeSamples_bytes_lt samples hrange
  have hdec : decodeBytesToSamples (referenceEncodeSamples samples) = samples := by
    rw [decode_eq_decodeRounds]
    exact decodeRounds_encode 18 samples (by omega) hrange
  refine ⟨hlen54, ?_, hdec, ?_⟩
  · rw [referenceBytesToHex_length, hlen54]
  · unfold decodeHexToSamples
    rw [show (String.mk (referenceBytesToHex (referenceEncodeSamples samples))).toList =
      referenceBytesToHex (referenceEncodeSamples samples) from rfl]
    rw [hexPairs_of_referenceBytesToHex _ hbytes, hdec]

/-- Witness for C9 at the concrete sample list of 36 zeros. -/
theorem decode_left_inverse_of_encoder_witness :
    (List.replicate 36 (0 : Int)).length = 36 ∧
    (∀ s ∈ List.replicate 36 (0 : Int), -2048 ≤ s ∧ s ≤ 2047) ∧
    ((referenceEncodeSamples (List.replicate 36 0)).length = 54 ∧
     (referenceBytesToHex (referenceEncodeSamples (List.replicate 36 0))).length = 108 ∧
     decodeBytesToSamples (referenceEncodeSamples (List.replicate 36 0)) =
       List.replicate 36 0 ∧
     decodeHexToSamples
       (String.mk (referenceBytesToHex (referenceEncodeSamples (List.replicate 36 0)))) =
       List.replicate 36 0) :=
  ⟨by decide, by decide, decode_left_inverse_of_encoder _ (by decide) (by decide)⟩

end PressureSensor
